import Mathlib

/-!
Verification development for `check-peer-dependencies`
(`src/checkPeerDependencies.ts`).

The TypeScript source is shallowly embedded below.  External
collaborators that the file imports (the npm `semver` library, the
gatherer `gatherPeerDependencies`, the installed-version lookup
`getInstalledVersion`, the resolution engine `findPossibleResolutions`,
the command synthesizer `getCommandLines`, the shell `exec`, and the
record-identity test `isSameDep`) are modelled as an abstract
environment; everything that lives in `checkPeerDependencies.ts` itself
is translated directly.

Console output is modelled as a list of output events, process
termination as an exit code (`0` for a normal return), and the mutable
module-global `recursiveCount` as an explicit counter argument threaded
through the recursion.  Each call to `gatherPeerDependencies` /
`getInstalledVersion` reads the mutable on-disk state, which the
executed install commands change; the environment therefore indexes
both by a pass number `k` that advances whenever the code re-gathers
after installing.
-/

namespace CheckPeerDeps

/-- One peer-dependency edge (the `Dependency` record of
`packageUtils`): `depender@dependerVersion` requires `name` at the
semver range `version`.  The fields `installedVersion`,
`semverSatisfies` and `isYalc` are filled in by
`applySemverInformation`. -/
structure Dependency where
  name : String
  version : String
  depender : String
  dependerVersion : String
  installedVersion : Option String := none
  semverSatisfies : Bool := false
  isYalc : Bool := false
deriving DecidableEq

/-- The outcome of attempting to fix one conflicting package
(`Resolution` from `solution.ts`): `resolution` is the chosen version
string, or `none`/a falsy value when no version satisfies all ranges. -/
structure Resolution where
  problem : Dependency
  resolution : Option String
deriving DecidableEq

/-- The option surface consumed by `checkPeerDependencies`
(`CliOptions` from `cli.ts`); `orderBy` is `none` when no ordering was
requested on the command line. -/
structure CliOptions where
  verbose : Bool := false
  orderBy : Option String := none
  install : Bool := false
  findSolutions : Bool := false
deriving DecidableEq

/-- Modelled from the spec: the external npm `semver` library used by
`applySemverInformation` (that library is not part of this repository).
`satisfies v r` decides whether version `v` lies in range `r`.  Per the
spec, "a malformed range string is treated as non-satisfying rather
than raising", and the empty string is not a valid version, so it
satisfies no range. -/
structure SemverLib where
  satisfies : String → String → Bool
  validRange : String → Bool
  not_satisfies_of_invalid : ∀ v r, validRange r = false → satisfies v r = false
  empty_not_satisfies : ∀ r, satisfies "" r = false

/-- JavaScript truthiness of a `string | undefined` value: `undefined`
and the empty string are falsy. -/
def strTruthy : Option String → Bool
  | none => false
  | some s => !(s == "")

/-- The string that `RegExp.exec` receives after JavaScript coerces its
argument: an `undefined` installed version becomes the literal string
"undefined". -/
def jsStringOrUndefined : Option String → String
  | some s => s
  | none => "undefined"

/-- One character of the regex class `[a-f0-9]`. -/
def hexDigit (c : Char) : Bool :=
  ('a' ≤ c && c ≤ 'f') || ('0' ≤ c && c ≤ '9')

/-- Scanning right-to-left after at least one hex digit was consumed:
further hex digits may follow, and the run must be closed by a literal
`-` for the regex `-[a-f0-9]+-yalc$` to match. -/
def hexRunDash : List Char → Bool
  | [] => false
  | c :: rest => if c = '-' then true else hexDigit c && hexRunDash rest

/-- The yalc regex test (pattern `-[a-f0-9]+-yalc$`) on the reversed
character list:
the string must end in "-yalc", preceded by one or more hex digits,
preceded by a literal `-`. -/
def matchYalcRev (r : List Char) : Bool :=
  match r with
  | c1 :: c2 :: c3 :: c4 :: c5 :: c :: rest =>
      c1 == 'c' && c2 == 'l' && c3 == 'a' && c4 == 'y' && c5 == '-' &&
        (hexDigit c && hexRunDash rest)
  | _ => false

/-- Whether the regex `-[a-f0-9]+-yalc$` matches the version string
`s`. -/
def isYalcVersion (s : String) : Bool :=
  matchYalcRev s.data.reverse

/-- Source lines 13-19: annotate one gathered record with
`installedVersion`, `semverSatisfies` and `isYalc`.
`semverSatisfies` is `installedVersion ? semver.satisfies(...) : false`
(JS truthiness), `isYalc` is the double-negated match of the regex
`-[a-f0-9]+-yalc$` against the coerced installed version. -/
def applySemverInformation (lib : SemverLib) (installedVersion : Option String)
    (dep : Dependency) : Dependency :=
  let semverSatisfies :=
    if strTruthy installedVersion then
      lib.satisfies (installedVersion.getD "") dep.version
    else false
  let isYalc := isYalcVersion (jsStringOrUndefined installedVersion)
  { dep with installedVersion := installedVersion,
             semverSatisfies := semverSatisfies, isYalc := isYalc }

/-- The external collaborators, indexed by the gathering pass `k` where
their answers depend on the on-disk installed state:
`gather k` is `gatherPeerDependencies(".", options)` on pass `k`,
`installed k n` is `getInstalledVersion` for package `n` on pass `k`,
`resolve` is `findPossibleResolutions`, and `commandLines` is
`getCommandLines` for the fixed package manager of the run. -/
structure Env where
  gather : Nat → List Dependency
  installed : Nat → String → Option String
  resolve : List Dependency → List Dependency → List Resolution
  commandLines : List Resolution → List String

/-- Source lines 10-22: gather the full peer-dependency list on pass
`k` and annotate every record. -/
def getAllNestedPeerDependencies (lib : SemverLib) (env : Env) (k : Nat) :
    List Dependency :=
  (env.gather k).map (fun dep =>
    applySemverInformation lib (env.installed k dep.name) dep)

/-- Modelled from the spec: `isSameDep` from `packageUtils` (that file
is not under `src/`); per the spec, "two records with equal
`(name, depender, version)` are considered the same logical edge". -/
def isSameDep (a b : Dependency) : Bool :=
  a.name == b.name && a.depender == b.depender && a.version == b.version

/-- One console line of the program, with the data a claim needs to
inspect attached. -/
inductive OutEvent where
  | blank
  | searching
  | statusDepender (dep : Dependency)
  | statusDependee (dep : Dependency)
  | noSolutionDiag (name : String) (ranges : List String)
  | allSatisfied
  | installingHeader
  | commandEcho (cmd : String)
  | allMetAfterInstall
  | foundNewUnmet (n : Nat)
  | recursionLimit
  | solutionsHint (cmds : List String)
  | installSuggestion
deriving DecidableEq

/-- Whether an event is a per-record status line (printed only by
`reportPeerDependencyStatusByDepender` / `...ByDependee`). -/
def isStatusEvent : OutEvent → Bool
  | .statusDepender _ => true
  | .statusDependee _ => true
  | _ => false

/-- Source lines 26-38: one status line per record in by-depender form;
a satisfied record is printed only in verbose mode, every unsatisfied
record (yalc, installed-but-mismatching, or missing) is printed. -/
def reportPeerDependencyStatusByDepender (dep : Dependency)
    (options : CliOptions) : List OutEvent :=
  if dep.semverSatisfies then
    if options.verbose then [.statusDepender dep] else []
  else [.statusDepender dep]

/-- Source lines 40-52: one status line per record in by-dependee form. -/
def reportPeerDependencyStatusByDependee (dep : Dependency)
    (options : CliOptions) : List OutEvent :=
  if dep.semverSatisfies then
    if options.verbose then [.statusDependee dep] else []
  else [.statusDependee dep]

/-- Modelled from the spec: `String.prototype.localeCompare` as used on
source lines 112 and 115, which the spec describes as lexicographic
comparison of the composite keys ("stable-sorted lexicographically"). -/
def localeCompareLe (a b : String) : Bool := decide (a ≤ b)

/-- The composite sort key of source line 112. -/
def dependerKey (d : Dependency) : String := d.depender ++ d.name

/-- The composite sort key of source line 115. -/
def dependeeKey (d : Dependency) : String := d.name ++ d.depender

/-- Source line 112: `Array.prototype.sort` (a stable comparator sort,
modelled by `List.mergeSort`) by `localeCompare` on `depender ++ name`. -/
def sortByDepender (l : List Dependency) : List Dependency :=
  l.mergeSort (fun a b => localeCompareLe (dependerKey a) (dependerKey b))

/-- Source line 115: the same sort by `name ++ depender`. -/
def sortByDependee (l : List Dependency) : List Dependency :=
  l.mergeSort (fun a b => localeCompareLe (dependeeKey a) (dependeeKey b))

/-- Source lines 111-117, list part: the in-place sort applied to
`allNestedPeerDependencies` before the per-record report; an `orderBy`
that is neither "depender" nor "dependee" leaves the list untouched. -/
def reportedList (options : CliOptions) (l : List Dependency) :
    List Dependency :=
  if options.orderBy == some "depender" then sortByDepender l
  else if options.orderBy == some "dependee" then sortByDependee l
  else l

/-- Source lines 111-117, output part: the status lines printed for the
(already sorted) list; nothing is printed for any other `orderBy`. -/
def reportEvents (options : CliOptions) (sorted : List Dependency) :
    List OutEvent :=
  if options.orderBy == some "depender" then
    sorted.flatMap (fun dep => reportPeerDependencyStatusByDepender dep options)
  else if options.orderBy == some "dependee" then
    sorted.flatMap (fun dep => reportPeerDependencyStatusByDependee dep options)
  else []

/-- Source lines 66-67: the ranges listed in a "no version satisfies"
diagnostic — every `version` declared for the package `name`, reduced
left-to-right, keeping a range only if it is not already present. -/
def peerDepRanges (allNested : List Dependency) (name : String) :
    List String :=
  ((allNested.filter (fun dep => dep.name == name)).map
      (fun dep => dep.version)).foldl
    (fun acc version =>
      if acc.contains version then acc else acc ++ [version]) []

/-- What `findSolutions` (source lines 55-77) returns and prints. -/
structure SolutionsResult where
  resolutionsWithSolutions : List Resolution
  nosolution : List Resolution
  events : List OutEvent
deriving DecidableEq

/-- Source lines 55-77: run `findPossibleResolutions`, split the
resolutions by truthiness of `resolution`, and print one diagnostic
per no-solution problem. -/
def findSolutionsRun (env : Env) (problems allNested : List Dependency) :
    SolutionsResult :=
  let resolutions := env.resolve problems allNested
  let resolutionsWithSolutions :=
    resolutions.filter (fun r => strTruthy r.resolution)
  let nosolution := resolutions.filter (fun r => !strTruthy r.resolution)
  let diagEvents := nosolution.map (fun r =>
    OutEvent.noSolutionDiag r.problem.name
      (peerDepRanges allNested r.problem.name))
  { resolutionsWithSolutions := resolutionsWithSolutions
    nosolution := nosolution
    events := [.blank, .searching, .blank] ++ diagEvents ++
      (if 0 < nosolution.length then [.blank] else []) }

/-- The annotated (and, if requested, sorted) list
`allNestedPeerDependencies` of pass `k` inside `checkPeerDependencies`. -/
def allNestedAt (lib : SemverLib) (env : Env) (options : CliOptions)
    (k : Nat) : List Dependency :=
  reportedList options (getAllNestedPeerDependencies lib env k)

/-- Source line 119: the problem records of pass `k` — unsatisfied and
not yalc-installed. -/
def problemsAt (lib : SemverLib) (env : Env) (options : CliOptions)
    (k : Nat) : List Dependency :=
  (allNestedAt lib env options k).filter
    (fun dep => !dep.semverSatisfies && !dep.isYalc)

/-- The `findSolutions` result of pass `k`. -/
def solutionsAt (lib : SemverLib) (env : Env) (options : CliOptions)
    (k : Nat) : SolutionsResult :=
  findSolutionsRun env (problemsAt lib env options k)
    (allNestedAt lib env options k)

/-- The no-solution resolutions of pass `k`. -/
def nosolutionAt (lib : SemverLib) (env : Env) (options : CliOptions)
    (k : Nat) : List Resolution :=
  (solutionsAt lib env options k).nosolution

/-- The synthesized install command lines of pass `k`. -/
def commandLinesAt (lib : SemverLib) (env : Env) (options : CliOptions)
    (k : Nat) : List String :=
  env.commandLines (solutionsAt lib env options k).resolutionsWithSolutions

/-- Source lines 88-90: the still-unsatisfied records of the re-gather
on pass `j`, excluding any record that is the same logical edge as a
problem already known to have no solution. -/
def newUnsatisfiedDepsAt (lib : SemverLib) (env : Env) (j : Nat)
    (nosolution : List Resolution) : List Dependency :=
  ((getAllNestedPeerDependencies lib env j).filter
      (fun dep => !dep.semverSatisfies)).filter
    (fun dep => !(nosolution.any (fun x => isSameDep x.problem dep)))

/-- The console lines printed while executing the install commands
(source lines 80-86). -/
def execEvents (commandLines : List String) : List OutEvent :=
  [.installingHeader, .blank] ++
    commandLines.flatMap (fun cmd => [.commandEcho cmd, .blank])

/-- The observable outcome of a run: the process exit code (`0` for a
normal return), everything printed, the number of entries into
`checkPeerDependencies` (passes) and into `installPeerDependencies`
(installing steps). -/
structure RunOutcome where
  exitCode : Nat
  events : List OutEvent
  passes : Nat
  installs : Nat
deriving DecidableEq

mutual

/-- Source lines 108-147 (`checkPeerDependencies`): gather + classify,
report per the requested order, and either finish (no problems), run
the install loop, print the solutions, or print the hint; every path
that falls through the branches ends in `process.exit(1)`.  `k` is the
gathering pass, `c` the value of the module-global `recursiveCount` on
entry. -/
def checkPeerDependenciesRun (lib : SemverLib) (env : Env)
    (options : CliOptions) (k c : Nat) : RunOutcome :=
  let allNested := allNestedAt lib env options k
  let rep := reportEvents options allNested
  let problems := problemsAt lib env options k
  if problems.length = 0 then
    { exitCode := 0, events := rep ++ [.allSatisfied], passes := 1,
      installs := 0 }
  else if options.install then
    let sol := solutionsAt lib env options k
    let commandLines := env.commandLines sol.resolutionsWithSolutions
    if commandLines.length ≠ 0 then
      let inner := installPeerDependenciesRun lib env options commandLines
        sol.nosolution k c
      { exitCode := inner.exitCode,
        events := rep ++ sol.events ++ inner.events,
        passes := inner.passes + 1, installs := inner.installs }
    else
      { exitCode := 1, events := rep ++ sol.events, passes := 1,
        installs := 0 }
  else if options.findSolutions then
    let sol := solutionsAt lib env options k
    let commandLines := env.commandLines sol.resolutionsWithSolutions
    { exitCode := 1,
      events := rep ++ sol.events ++
        (if commandLines.length ≠ 0 then [.solutionsHint commandLines]
         else []),
      passes := 1, installs := 0 }
  else
    { exitCode := 1, events := rep ++ [.installSuggestion], passes := 1,
      installs := 0 }
termination_by (5 - c, 1)

/-- Source lines 79-106 (`installPeerDependencies`): execute the
commands, re-gather on pass `k + 1`, and — if newly unsatisfied records
remain — recurse with `++recursiveCount` while it stays below 5,
otherwise `process.exit(5)`. -/
def installPeerDependenciesRun (lib : SemverLib) (env : Env)
    (options : CliOptions) (commandLines : List String)
    (nosolution : List Resolution) (k c : Nat) : RunOutcome :=
  let newUnsatisfiedDeps := newUnsatisfiedDepsAt lib env (k + 1) nosolution
  let metEvents :=
    if nosolution.length == 0 && newUnsatisfiedDeps.length == 0 then
      [OutEvent.allMetAfterInstall]
    else []
  if 0 < newUnsatisfiedDeps.length then
    if h : c + 1 < 5 then
      let inner := checkPeerDependenciesRun lib env options (k + 1) (c + 1)
      { exitCode := inner.exitCode,
        events := execEvents commandLines ++ metEvents ++
          [.foundNewUnmet newUnsatisfiedDeps.length] ++ inner.events,
        passes := inner.passes, installs := inner.installs + 1 }
    else
      { exitCode := 5,
        events := execEvents commandLines ++ metEvents ++
          [.foundNewUnmet newUnsatisfiedDeps.length, .recursionLimit],
        passes := 0, installs := 1 }
  else
    { exitCode := 0, events := execEvents commandLines ++ metEvents,
      passes := 0, installs := 1 }
termination_by (5 - c, 0)

end

/-! Branch lemmas: one-step unfoldings of the run functions, one per
terminal or recursive branch of the source control flow. -/

theorem checkRun_of_no_problems (lib : SemverLib) (env : Env)
    (options : CliOptions) (k c : Nat)
    (h : problemsAt lib env options k = []) :
    checkPeerDependenciesRun lib env options k c =
      { exitCode := 0,
        events := reportEvents options (allNestedAt lib env options k) ++
          [.allSatisfied],
        passes := 1, installs := 0 } := by
  rw [checkPeerDependenciesRun]
  simp [h]

theorem checkRun_install_go (lib : SemverLib) (env : Env)
    (options : CliOptions) (k c : Nat)
    (hpr : problemsAt lib env options k ≠ [])
    (hin : options.install = true)
    (hcmd : commandLinesAt lib env options k ≠ []) :
    checkPeerDependenciesRun lib env options k c =
      { exitCode := (installPeerDependenciesRun lib env options
          (commandLinesAt lib env options k)
          (nosolutionAt lib env options k) k c).exitCode,
        events := reportEvents options (allNestedAt lib env options k) ++
          (solutionsAt lib env options k).events ++
          (installPeerDependenciesRun lib env options
            (commandLinesAt lib env options k)
            (nosolutionAt lib env options k) k c).events,
        passes := (installPeerDependenciesRun lib env options
          (commandLinesAt lib env options k)
          (nosolutionAt lib env options k) k c).passes + 1,
        installs := (installPeerDependenciesRun lib env options
          (commandLinesAt lib env options k)
          (nosolutionAt lib env options k) k c).installs } := by
  rw [checkPeerDependenciesRun]
  simp only [commandLinesAt, nosolutionAt] at *
  simp [hpr, hin, hcmd]

theorem checkRun_install_nocmd (lib : SemverLib) (env : Env)
    (options : CliOptions) (k c : Nat)
    (hpr : problemsAt lib env options k ≠ [])
    (hin : options.install = true)
    (hcmd : commandLinesAt lib env options k = []) :
    checkPeerDependenciesRun lib env options k c =
      { exitCode := 1,
        events := reportEvents options (allNestedAt lib env options k) ++
          (solutionsAt lib env options k).events,
        passes := 1, installs := 0 } := by
  rw [checkPeerDependenciesRun]
  simp only [commandLinesAt] at hcmd
  simp [hpr, hin, hcmd]

theorem checkRun_findSolutions (lib : SemverLib) (env : Env)
    (options : CliOptions) (k c : Nat)
    (hpr : problemsAt lib env options k ≠ [])
    (hin : options.install = false)
    (hfs : options.findSolutions = true) :
    checkPeerDependenciesRun lib env options k c =
      { exitCode := 1,
        events := reportEvents options (allNestedAt lib env options k) ++
          (solutionsAt lib env options k).events ++
          (if (commandLinesAt lib env options k).length ≠ 0 then
            [.solutionsHint (commandLinesAt lib env options k)]
          else []),
        passes := 1, installs := 0 } := by
  rw [checkPeerDependenciesRun]
  simp only [commandLinesAt] at *
  simp [hpr, hin, hfs]

theorem checkRun_default (lib : SemverLib) (env : Env)
    (options : CliOptions) (k c : Nat)
    (hpr : problemsAt lib env options k ≠ [])
    (hin : options.install = false)
    (hfs : options.findSolutions = false) :
    checkPeerDependenciesRun lib env options k c =
      { exitCode := 1,
        events := reportEvents options (allNestedAt lib env options k) ++
          [.installSuggestion],
        passes := 1, installs := 0 } := by
  rw [checkPeerDependenciesRun]
  simp [hpr, hin, hfs]

theorem installRun_done (lib : SemverLib) (env : Env) (options : CliOptions)
    (commandLines : List String) (nosolution : List Resolution) (k c : Nat)
    (h : newUnsatisfiedDepsAt lib env (k + 1) nosolution = []) :
    installPeerDependenciesRun lib env options commandLines nosolution k c =
      { exitCode := 0,
        events := execEvents commandLines ++
          (if nosolution.length == 0 then [OutEvent.allMetAfterInstall]
           else []),
        passes := 0, installs := 1 } := by
  rw [installPeerDependenciesRun]
  simp [h]

theorem installRun_recurse (lib : SemverLib) (env : Env)
    (options : CliOptions) (commandLines : List String)
    (nosolution : List Resolution) (k c : Nat)
    (h : newUnsatisfiedDepsAt lib env (k + 1) nosolution ≠ [])
    (hlt : c + 1 < 5) :
    installPeerDependenciesRun lib env options commandLines nosolution k c =
      { exitCode := (checkPeerDependenciesRun lib env options (k + 1)
          (c + 1)).exitCode,
        events := execEvents commandLines ++
          [.foundNewUnmet (newUnsatisfiedDepsAt lib env (k + 1)
            nosolution).length] ++
          (checkPeerDependenciesRun lib env options (k + 1) (c + 1)).events,
        passes := (checkPeerDependenciesRun lib env options (k + 1)
          (c + 1)).passes,
        installs := (checkPeerDependenciesRun lib env options (k + 1)
          (c + 1)).installs + 1 } := by
  rw [installPeerDependenciesRun]
  have hlen : 0 < (newUnsatisfiedDepsAt lib env (k + 1) nosolution).length :=
    List.length_pos.mpr h
  simp [hlen, hlt, Nat.pos_iff_ne_zero.mp hlen]

theorem installRun_limit (lib : SemverLib) (env : Env)
    (options : CliOptions) (commandLines : List String)
    (nosolution : List Resolution) (k c : Nat)
    (h : newUnsatisfiedDepsAt lib env (k + 1) nosolution ≠ [])
    (hge : ¬ c + 1 < 5) :
    installPeerDependenciesRun lib env options commandLines nosolution k c =
      { exitCode := 5,
        events := execEvents commandLines ++
          [.foundNewUnmet (newUnsatisfiedDepsAt lib env (k + 1)
            nosolution).length, .recursionLimit],
        passes := 0, installs := 1 } := by
  rw [installPeerDependenciesRun]
  have hlen : 0 < (newUnsatisfiedDepsAt lib env (k + 1) nosolution).length :=
    List.length_pos.mpr h
  simp [hlen, hge, Nat.pos_iff_ne_zero.mp hlen]

/-! Classifier lemmas: the annotation of one record. -/

theorem semverSatisfies_applySemverInformation (lib : SemverLib)
    (iv : Option String) (dep : Dependency) :
    (applySemverInformation lib iv dep).semverSatisfies = true ↔
      ∃ v, iv = some v ∧ lib.satisfies v dep.version = true := by
  cases iv with
  | none => simp [applySemverInformation, strTruthy]
  | some v =>
    by_cases hv : v = ""
    · subst hv
      simp [applySemverInformation, strTruthy, lib.empty_not_satisfies]
    · simp [applySemverInformation, strTruthy, hv]

theorem isYalc_applySemverInformation (lib : SemverLib) (iv : Option String)
    (dep : Dependency) :
    (applySemverInformation lib iv dep).isYalc =
      isYalcVersion (jsStringOrUndefined iv) := by
  simp [applySemverInformation]

/-! The yalc regex: correctness of the executable matcher against the
declarative shape of the pattern `-[a-f0-9]+-yalc$`. -/

/-- Declarative form of a match of the regex `-[a-f0-9]+-yalc$`: the
string ends with a literal dash, a nonempty run of lowercase-hex
digits, and the literal "-yalc". -/
def IsYalcSuffix (s : String) : Prop :=
  ∃ pre hex : String, hex ≠ "" ∧ (∀ c ∈ hex.data, hexDigit c = true) ∧
    s = pre ++ "-" ++ hex ++ "-yalc"

theorem hexRunDash_iff (t : List Char) :
    hexRunDash t = true ↔
      ∃ run preRev : List Char, (∀ c ∈ run, hexDigit c = true) ∧
        t = run ++ '-' :: preRev := by
  induction t with
  | nil =>
    simp only [hexRunDash, Bool.false_eq_true, false_iff]
    rintro ⟨run, preRev, -, heq⟩
    exact (List.append_ne_nil_of_right_ne_nil run (List.cons_ne_nil _ _))
      heq.symm
  | cons c rest ih =>
    by_cases hc : c = '-'
    · subst hc
      refine ⟨fun _ => ⟨[], rest, by simp, by simp⟩, fun _ => ?_⟩
      simp [hexRunDash]
    · simp only [hexRunDash, if_neg hc, Bool.and_eq_true, ih]
      constructor
      · rintro ⟨h1, run, preRev, hall, heq⟩
        refine ⟨c :: run, preRev, ?_, by simp [heq]⟩
        intro x hx
        rcases List.mem_cons.mp hx with rfl | hx
        · exact h1
        · exact hall x hx
      · rintro ⟨run, preRev, hall, heq⟩
        cases run with
        | nil =>
          exact absurd (List.cons_eq_cons.mp heq).1 hc
        | cons c' run' =>
          obtain ⟨rfl, heq'⟩ := List.cons_eq_cons.mp heq
          exact ⟨hall c (by simp), run', preRev,
            fun x hx => hall x (by simp [hx]), heq'⟩

theorem matchYalcRev_iff (r : List Char) :
    matchYalcRev r = true ↔
      ∃ hexRev preRev : List Char, hexRev ≠ [] ∧
        (∀ c ∈ hexRev, hexDigit c = true) ∧
        r = 'c' :: 'l' :: 'a' :: 'y' :: '-' :: (hexRev ++ '-' :: preRev) := by
  constructor
  · intro h
    match r, h with
    | c1 :: c2 :: c3 :: c4 :: c5 :: c :: rest, h =>
      simp only [matchYalcRev, Bool.and_eq_true, beq_iff_eq] at h
      obtain ⟨⟨⟨⟨⟨rfl, rfl⟩, rfl⟩, rfl⟩, rfl⟩, hhex, hrun⟩ := h
      obtain ⟨run, preRev, hall, heq⟩ := (hexRunDash_iff rest).mp hrun
      refine ⟨c :: run, preRev, List.cons_ne_nil _ _, ?_, by simp [heq]⟩
      intro x hx
      rcases List.mem_cons.mp hx with rfl | hx
      · exact hhex
      · exact hall x hx
  · rintro ⟨hexRev, preRev, hne, hall, rfl⟩
    cases hexRev with
    | nil => exact absurd rfl hne
    | cons c run =>
      have h1 : hexDigit c = true := hall c (by simp)
      have h2 : hexRunDash (run ++ '-' :: preRev) = true :=
        (hexRunDash_iff _).mpr ⟨run, preRev,
          fun x hx => hall x (by simp [hx]), rfl⟩
      simp [matchYalcRev, h1, h2]

theorem isYalcVersion_iff (s : String) :
    isYalcVersion s = true ↔ IsYalcSuffix s := by
  rw [isYalcVersion, matchYalcRev_iff]
  constructor
  · rintro ⟨hexRev, preRev, hne, hall, heq⟩
    have hdata : s.data =
        preRev.reverse ++ '-' :: (hexRev.reverse ++
          ('-' :: 'y' :: 'a' :: 'l' :: 'c' :: [])) := by
      have := congrArg List.reverse heq
      rw [List.reverse_reverse] at this
      rw [this]
      simp
    refine ⟨String.mk preRev.reverse, String.mk hexRev.reverse, ?_, ?_, ?_⟩
    · intro h
      apply hne
      have : hexRev.reverse = [] := congrArg String.data h
      simpa using congrArg List.reverse this
    · intro c hc
      exact hall c (List.mem_reverse.mp hc)
    · apply String.ext
      rw [hdata]
      simp [String.data_append]
  · rintro ⟨pre, hex, hne, hall, rfl⟩
    refine ⟨hex.data.reverse, pre.data.reverse, ?_, ?_, ?_⟩
    · intro h
      apply hne
      apply String.ext
      simpa using congrArg List.reverse h
    · intro c hc
      exact hall c (List.mem_reverse.mp hc)
    · simp [String.data_append]

/-! First-seen deduplication: the declarative characterisation of the
`reduce`-based range list of source lines 66-67. -/

/-- Keep the first occurrence of every element, in order of first
appearance. -/
def firstSeenDedup : List String → List String
  | [] => []
  | x :: xs => x :: firstSeenDedup (xs.filter (fun y => !(y == x)))
termination_by l => l.length
decreasing_by exact Nat.lt_succ_of_le (List.length_filter_le _ _)

theorem mem_firstSeenDedup (a : String) (l : List String) :
    a ∈ firstSeenDedup l ↔ a ∈ l := by
  induction l using firstSeenDedup.induct with
  | case1 => simp [firstSeenDedup]
  | case2 x xs ih =>
    simp only [firstSeenDedup, List.mem_cons, ih, List.mem_filter]
    by_cases hax : a = x <;> simp [hax]

theorem nodup_firstSeenDedup (l : List String) :
    (firstSeenDedup l).Nodup := by
  induction l using firstSeenDedup.induct with
  | case1 => simp [firstSeenDedup]
  | case2 x xs ih =>
    rw [firstSeenDedup]
    refine List.Nodup.cons ?_ ih
    intro hx
    have := (mem_firstSeenDedup x _).mp hx
    simp at this

theorem foldl_dedup_eq_firstSeenDedup (l : List String) : ∀ acc : List String,
    l.foldl (fun acc version =>
      if acc.contains version then acc else acc ++ [version]) acc =
      acc ++ firstSeenDedup (l.filter (fun v => !acc.contains v)) := by
  induction l with
  | nil => intro acc; simp [firstSeenDedup]
  | cons x xs ih =>
    intro acc
    rw [List.foldl_cons]
    by_cases hx : acc.contains x
    · rw [if_pos hx, ih acc, List.filter_cons]
      have hmem : x ∈ acc := by simpa using hx
      simp [hx, hmem]
    · rw [if_neg hx, ih (acc ++ [x])]
      rw [List.filter_cons]
      simp only [hx, Bool.not_false, if_pos]
      rw [firstSeenDedup]
      have hflt : (xs.filter (fun v => !acc.contains v)).filter
          (fun y => !(y == x)) =
          xs.filter (fun v => !(acc ++ [x]).contains v) := by
        rw [List.filter_filter]
        apply List.filter_congr
        intro v _
        by_cases hvx : v = x
        · subst hvx; simp
        · simp [hvx, List.contains_eq_any_beq]
      rw [hflt]
      simp

theorem peerDepRanges_eq_firstSeenDedup (allNested : List Dependency)
    (name : String) :
    peerDepRanges allNested name =
      firstSeenDedup ((allNested.filter (fun dep => dep.name == name)).map
        (fun dep => dep.version)) := by
  rw [peerDepRanges, foldl_dedup_eq_firstSeenDedup]
  simp

/-! Stable sorting by a string key: sortedness, permutation and
stability of `List.mergeSort` under a key comparator. -/

theorem stableSortByKey (key : Dependency → String) (l : List Dependency) :
    ((l.mergeSort (fun a b => localeCompareLe (key a) (key b))).Pairwise
        (fun a b => key a ≤ key b)
    ∧ (l.mergeSort (fun a b => localeCompareLe (key a) (key b))).Perm l
    ∧ ∀ s, (l.mergeSort (fun a b => localeCompareLe (key a)
          (key b))).filter (fun d => key d == s) =
        l.filter (fun d => key d == s)) := by
  have htrans : ∀ (a b c : Dependency),
      localeCompareLe (key a) (key b) = true →
      localeCompareLe (key b) (key c) = true →
      localeCompareLe (key a) (key c) = true := by
    intro a b c hab hbc
    simp only [localeCompareLe, decide_eq_true_eq] at *
    exact le_trans hab hbc
  have htotal : ∀ (a b : Dependency),
      (localeCompareLe (key a) (key b) ||
        localeCompareLe (key b) (key a)) = true := by
    intro a b
    simp only [localeCompareLe, Bool.or_eq_true, decide_eq_true_eq]
    exact le_total (key a) (key b)
  refine ⟨?_, List.mergeSort_perm l _, ?_⟩
  · have := List.sorted_mergeSort htrans htotal l
    exact this.imp (by intro a b h; simpa [localeCompareLe] using h)
  · intro s
    have hc0 : ∀ d ∈ l.filter (fun d => key d == s), key d = s := by
      intro d hd
      simpa using (List.mem_filter.mp hd).2
    have hcpw : (l.filter (fun d => key d == s)).Pairwise
        (fun a b => localeCompareLe (key a) (key b) = true) := by
      apply List.pairwise_of_forall_mem_list
      intro a ha b hb
      simp only [localeCompareLe, decide_eq_true_eq, hc0 a ha, hc0 b hb,
        le_refl]
    have hsub : (l.filter (fun d => key d == s)).Sublist
        (l.mergeSort (fun a b => localeCompareLe (key a) (key b))) :=
      List.sublist_mergeSort htrans htotal hcpw (List.filter_sublist l)
    have hfp : (l.filter (fun d => key d == s)).filter
        (fun d => key d == s) = l.filter (fun d => key d == s) := by
      simp [List.filter_filter]
    have hsub2 : (l.filter (fun d => key d == s)).Sublist
        ((l.mergeSort (fun a b => localeCompareLe (key a)
          (key b))).filter (fun d => key d == s)) := by
      have := List.Sublist.filter (fun d => key d == s) hsub
      rwa [hfp] at this
    have hlen : (l.filter (fun d => key d == s)).length =
        ((l.mergeSort (fun a b => localeCompareLe (key a)
          (key b))).filter (fun d => key d == s)).length :=
      (((List.mergeSort_perm l _).filter _).length_eq).symm
    exact (hsub2.eq_of_length hlen).symm

/-- Every no-solution resolution has its diagnostic among the events
printed by `findSolutions`. -/
theorem findSolutionsRun_diag_mem (env : Env)
    (problems allNested : List Dependency) :
    ∀ r ∈ (findSolutionsRun env problems allNested).nosolution,
      OutEvent.noSolutionDiag r.problem.name
          (peerDepRanges allNested r.problem.name) ∈
        (findSolutionsRun env problems allNested).events := by
  intro r hr
  simp only [findSolutionsRun] at hr ⊢
  refine List.mem_append.mpr (Or.inl (List.mem_append.mpr (Or.inr ?_)))
  exact List.mem_map.mpr ⟨r, hr, rfl⟩

/-! Concrete instances used by the witnesses. -/

/-- A small executable semver oracle (exact-match ranges, the range
"bad" malformed) satisfying the library contract. -/
def semverDemo : SemverLib where
  satisfies := fun v r => !(v == "") && (!(r == "bad") && (v == r))
  validRange := fun r => !(r == "bad")
  not_satisfies_of_invalid := by
    intro v r h
    simp only [Bool.not_eq_true', Bool.not_eq_false] at h
    simp [h]
  empty_not_satisfies := by intro r; simp

/-- A semver oracle that accepts every nonempty version, for records
whose `semverSatisfies` must come out true. -/
def semverAlways : SemverLib where
  satisfies := fun v _ => !(v == "")
  validRange := fun _ => true
  not_satisfies_of_invalid := by intro v r h; simp at h
  empty_not_satisfies := by intro r; simp

/-- A demo record: `app@1.0.0` requires `react` at range `1.2.3`. -/
def depDemo : Dependency :=
  { name := "react", version := "1.2.3", depender := "app",
    dependerVersion := "1.0.0" }

/-- A demo record with the malformed range "bad". -/
def depBad : Dependency :=
  { name := "redux", version := "bad", depender := "app",
    dependerVersion := "1.0.0" }

/-- A demo environment: two gathered records, everything installed at
1.2.3, no resolutions, no commands. -/
def envDemo : Env where
  gather := fun _ => [depDemo, depBad]
  installed := fun _ _ => some "1.2.3"
  resolve := fun _ _ => []
  commandLines := fun _ => []

/-- A demo environment whose resolution engine reports `depDemo` as
having no solution. -/
def envNoSol : Env where
  gather := fun _ => [depDemo]
  installed := fun _ _ => none
  resolve := fun _ _ => [{ problem := depDemo, resolution := none }]
  commandLines := fun _ => []

/-! The claims. -/

/-- C3: for every Dependency Record produced by classification,
`semverSatisfies` is true iff an installed version of the record's
package exists and that installed version satisfies the record's
semver range `version`. -/
theorem C3_semverSatisfies_iff (lib : SemverLib) (iv : Option String)
    (dep : Dependency) :
    (applySemverInformation lib iv dep).semverSatisfies = true ↔
      ∃ v, iv = some v ∧ lib.satisfies v dep.version = true :=
  semverSatisfies_applySemverInformation lib iv dep

/-- C3 witness: a concrete installed version satisfying its range
classifies as satisfied. -/
theorem C3_witness :
    (applySemverInformation semverDemo (some "1.2.3")
      depDemo).semverSatisfies = true :=
  (C3_semverSatisfies_iff semverDemo (some "1.2.3") depDemo).mpr
    ⟨"1.2.3", rfl, by decide⟩

/-- C4: `isYalc` is true iff the installed version string ends with the
pattern dash, hex digits, "-yalc"; and the value of `isYalc` does not
depend on the semver oracle, hence not on `semverSatisfies`. -/
theorem C4_isYalc_iff (lib lib' : SemverLib) (iv : Option String)
    (dep : Dependency) :
    ((applySemverInformation lib iv dep).isYalc = true ↔
      ∃ v, iv = some v ∧ IsYalcSuffix v)
    ∧ (applySemverInformation lib iv dep).isYalc =
        (applySemverInformation lib' iv dep).isYalc := by
  constructor
  · rw [isYalc_applySemverInformation]
    cases iv with
    | none =>
      constructor
      · intro h
        exact absurd h (by decide)
      · rintro ⟨v, h, -⟩
        cases h
    | some v =>
      rw [show jsStringOrUndefined (some v) = v from rfl, isYalcVersion_iff]
      constructor
      · intro h
        exact ⟨v, rfl, h⟩
      · rintro ⟨v', hv, h⟩
        cases hv
        exact h
  · rw [isYalc_applySemverInformation, isYalc_applySemverInformation]

/-- C4 witness: a yalc-suffixed installed version is flagged `isYalc`
even though its `semverSatisfies` is true. -/
theorem C4_witness :
    (applySemverInformation semverAlways (some "1.0.0-ab12-yalc")
      depDemo).semverSatisfies = true
    ∧ (applySemverInformation semverAlways (some "1.0.0-ab12-yalc")
      depDemo).isYalc = true := by
  refine ⟨by decide, ?_⟩
  exact (C4_isYalc_iff semverAlways semverDemo (some "1.0.0-ab12-yalc")
    depDemo).1.mpr
    ⟨"1.0.0-ab12-yalc", rfl, "1.0.0", "ab12", by decide, by decide, rfl⟩

/-- C7: a record whose range string is malformed classifies as
non-satisfying, and classification maps each record of the batch
independently, so one bad record never aborts classification of the
rest. -/
theorem C7_malformed_range (lib : SemverLib) :
    (∀ iv dep, lib.validRange dep.version = false →
      (applySemverInformation lib iv dep).semverSatisfies = false)
    ∧ (∀ env k l₁ bad l₂, env.gather k = l₁ ++ bad :: l₂ →
        getAllNestedPeerDependencies lib env k =
          l₁.map (fun dep =>
            applySemverInformation lib (env.installed k dep.name) dep) ++
          applySemverInformation lib (env.installed k bad.name) bad ::
          l₂.map (fun dep =>
            applySemverInformation lib (env.installed k dep.name) dep)) := by
  constructor
  · intro iv dep h
    simp [applySemverInformation,
      lib.not_satisfies_of_invalid (iv.getD "") dep.version h]
  · intro env k l₁ bad l₂ hg
    rw [getAllNestedPeerDependencies, hg]
    simp

/-- C7 witness: the malformed range "bad" classifies as non-satisfying
while the rest of the batch is still classified. -/
theorem C7_witness :
    (applySemverInformation semverDemo (some "1.0.0")
      depBad).semverSatisfies = false
    ∧ getAllNestedPeerDependencies semverDemo envDemo 0 =
        [applySemverInformation semverDemo (some "1.2.3") depDemo,
         applySemverInformation semverDemo (some "1.2.3") depBad] := by
  refine ⟨(C7_malformed_range semverDemo).1 (some "1.0.0") depBad
    (by decide), ?_⟩
  have h := (C7_malformed_range semverDemo).2 envDemo 0 [depDemo] depBad []
    rfl
  simpa using h

/-- C8: each no-solution diagnostic lists the ranges declared for the
package name across all gathered records, with duplicates removed, each
distinct range exactly once, in order of first appearance. -/
theorem C8_nosolution_ranges (allNested : List Dependency) (name : String) :
    peerDepRanges allNested name =
      firstSeenDedup ((allNested.filter (fun dep => dep.name == name)).map
        (fun dep => dep.version))
    ∧ (peerDepRanges allNested name).Nodup
    ∧ ∀ env problems,
        ∀ r ∈ (findSolutionsRun env problems allNested).nosolution,
        OutEvent.noSolutionDiag r.problem.name
            (peerDepRanges allNested r.problem.name) ∈
          (findSolutionsRun env problems allNested).events := by
  refine ⟨peerDepRanges_eq_firstSeenDedup allNested name, ?_, ?_⟩
  · rw [peerDepRanges_eq_firstSeenDedup]
    exact nodup_firstSeenDedup _
  · intro env problems
    exact findSolutionsRun_diag_mem env problems allNested

/-- C8 witness: a concrete no-solution problem has its diagnostic among
the printed events. -/
theorem C8_witness :
    OutEvent.noSolutionDiag depDemo.name
        (peerDepRanges [depDemo] depDemo.name) ∈
      (findSolutionsRun envNoSol [depDemo] [depDemo]).events :=
  (C8_nosolution_ranges [depDemo] depDemo.name).2.2 envNoSol [depDemo]
    { problem := depDemo, resolution := none } (by decide)

/-- C9: report-by-depender sorts by the composite key `depender ++
name` and report-by-dependee by `name ++ depender`: each sorted list is
ordered by its key, is a permutation of the input, and keeps records
with equal keys in their original relative order (stability). -/
theorem C9_ordering (l : List Dependency) :
    ((sortByDepender l).Pairwise (fun a b => dependerKey a ≤ dependerKey b)
    ∧ (sortByDepender l).Perm l
    ∧ ∀ s, (sortByDepender l).filter (fun d => dependerKey d == s) =
        l.filter (fun d => dependerKey d == s))
    ∧ ((sortByDependee l).Pairwise
        (fun a b => dependeeKey a ≤ dependeeKey b)
    ∧ (sortByDependee l).Perm l
    ∧ ∀ s, (sortByDependee l).filter (fun d => dependeeKey d == s) =
        l.filter (fun d => dependeeKey d == s)) :=
  ⟨stableSortByKey dependerKey l, stableSortByKey dependeeKey l⟩

/-- C9 witness: both sort orders on a concrete list are permutations of
it. -/
theorem C9_witness :
    (sortByDepender [depDemo, depBad]).Perm [depDemo, depBad]
    ∧ (sortByDependee [depDemo, depBad]).Perm [depDemo, depBad] :=
  ⟨(C9_ordering [depDemo, depBad]).1.2.1,
   (C9_ordering [depDemo, depBad]).2.2.1⟩

/-- C6: if after gathering and classification no record is both
unsatisfied and non-yalc, `checkPeerDependencies` prints the
all-satisfied message and the run returns with success (exit status 0)
and no installing step; records that are unsatisfied but yalc are not
counted as problems. -/
theorem C6_all_satisfied (lib : SemverLib) (env : Env)
    (options : CliOptions) (k c : Nat)
    (h : problemsAt lib env options k = []) :
    (checkPeerDependenciesRun lib env options k c).exitCode = 0
    ∧ OutEvent.allSatisfied ∈
        (checkPeerDependenciesRun lib env options k c).events
    ∧ (checkPeerDependenciesRun lib env options k c).passes = 1
    ∧ (checkPeerDependenciesRun lib env options k c).installs = 0 := by
  rw [checkRun_of_no_problems lib env options k c h]
  simp

/-- An environment whose only record is unsatisfied but installed via
yalc. -/
def envYalc : Env where
  gather := fun _ => [depDemo]
  installed := fun _ _ => some "1.0.0-ab12-yalc"
  resolve := fun _ _ => []
  commandLines := fun _ => []

/-- C6 witness: a run whose only record is unsatisfied-but-yalc exits 0
with the all-satisfied message. -/
theorem C6_witness :
    (checkPeerDependenciesRun semverDemo envYalc {} 0 0).exitCode = 0
    ∧ OutEvent.allSatisfied ∈
        (checkPeerDependenciesRun semverDemo envYalc {} 0 0).events
    ∧ (checkPeerDependenciesRun semverDemo envYalc {} 0 0).passes = 1
    ∧ (checkPeerDependenciesRun semverDemo envYalc {} 0 0).installs = 0 :=
  C6_all_satisfied semverDemo envYalc {} 0 0 (by decide)

/-- C5: when install is requested, problems exist, commands were
synthesized, and the re-gather after running them leaves no
still-unsatisfied record outside the known no-solution edges, the run
finishes successfully (exit 0) after exactly one installing step, with
no further recursion. -/
theorem C5_install_converges (lib : SemverLib) (env : Env)
    (options : CliOptions) (k c : Nat)
    (hin : options.install = true)
    (hpr : problemsAt lib env options k ≠ [])
    (hcmd : commandLinesAt lib env options k ≠ [])
    (hnew : newUnsatisfiedDepsAt lib env (k + 1)
      (nosolutionAt lib env options k) = []) :
    (checkPeerDependenciesRun lib env options k c).exitCode = 0
    ∧ (checkPeerDependenciesRun lib env options k c).installs = 1
    ∧ (checkPeerDependenciesRun lib env options k c).passes = 1 := by
  rw [checkRun_install_go lib env options k c hpr hin hcmd]
  rw [installRun_done lib env options (commandLinesAt lib env options k)
    (nosolutionAt lib env options k) k c hnew]
  simp

/-- An environment where one unsatisfied record is resolved and the
install makes the next gather satisfied. -/
def envConverge : Env where
  gather := fun _ => [depDemo]
  installed := fun j _ => if j = 0 then none else some "1.2.3"
  resolve := fun _ _ => [{ problem := depDemo, resolution := some "1.2.3" }]
  commandLines := fun _ => ["npm install react@1.2.3"]

/-- C5 witness: a concrete converging install run exits 0 after one
installing step. -/
theorem C5_witness :
    (checkPeerDependenciesRun semverDemo envConverge
      { install := true } 0 0).exitCode = 0
    ∧ (checkPeerDependenciesRun semverDemo envConverge
      { install := true } 0 0).installs = 1
    ∧ (checkPeerDependenciesRun semverDemo envConverge
      { install := true } 0 0).passes = 1 :=
  C5_install_converges semverDemo envConverge { install := true } 0 0 rfl
    (by decide) (by decide) (by decide)

/-- C1: if every pass finds problems, synthesizes commands, and each
re-gather after installing leaves new unsatisfied records, the run
terminates at the fifth pass with the distinct recursion-limit failure
(exit code 5, "Recursion limit reached") and never performs a sixth
pass. -/
theorem C1_recursion_limit (lib : SemverLib) (env : Env)
    (options : CliOptions)
    (hin : options.install = true)
    (hpr : ∀ k, problemsAt lib env options k ≠ [])
    (hcmd : ∀ k, commandLinesAt lib env options k ≠ [])
    (hnew : ∀ k, newUnsatisfiedDepsAt lib env (k + 1)
      (nosolutionAt lib env options k) ≠ []) :
    (checkPeerDependenciesRun lib env options 0 0).exitCode = 5
    ∧ (checkPeerDependenciesRun lib env options 0 0).passes = 5
    ∧ (checkPeerDependenciesRun lib env options 0 0).installs = 5
    ∧ OutEvent.recursionLimit ∈
        (checkPeerDependenciesRun lib env options 0 0).events := by
  have aux : ∀ n k c, c + n = 4 →
      (checkPeerDependenciesRun lib env options k c).exitCode = 5
      ∧ (checkPeerDependenciesRun lib env options k c).passes = n + 1
      ∧ (checkPeerDependenciesRun lib env options k c).installs = n + 1
      ∧ OutEvent.recursionLimit ∈
          (checkPeerDependenciesRun lib env options k c).events := by
    intro n
    induction n with
    | zero =>
      intro k c hc
      rw [checkRun_install_go lib env options k c (hpr k) hin (hcmd k)]
      rw [installRun_limit lib env options (commandLinesAt lib env options k)
        (nosolutionAt lib env options k) k c (hnew k) (by omega)]
      simp [execEvents]
    | succ n ih =>
      intro k c hc
      rw [checkRun_install_go lib env options k c (hpr k) hin (hcmd k)]
      rw [installRun_recurse lib env options
        (commandLinesAt lib env options k)
        (nosolutionAt lib env options k) k c (hnew k) (by omega)]
      obtain ⟨h1, h2, h3, h4⟩ := ih (k + 1) (c + 1) (by omega)
      simp [h1, h2, h3, h4]
  exact aux 4 0 0 rfl

/-- An environment that resolves its problem every pass but never
becomes satisfied, driving the loop to the recursion limit. -/
def envLoop : Env where
  gather := fun _ => [depDemo]
  installed := fun _ _ => none
  resolve := fun _ _ => [{ problem := depDemo, resolution := some "1.2.3" }]
  commandLines := fun _ => ["npm install react@1.2.3"]

/-- C1 witness: a concrete never-converging install run exits 5 after
exactly five passes. -/
theorem C1_witness :
    (checkPeerDependenciesRun semverDemo envLoop
      { install := true } 0 0).exitCode = 5
    ∧ (checkPeerDependenciesRun semverDemo envLoop
      { install := true } 0 0).passes = 5
    ∧ (checkPeerDependenciesRun semverDemo envLoop
      { install := true } 0 0).installs = 5
    ∧ OutEvent.recursionLimit ∈
        (checkPeerDependenciesRun semverDemo envLoop
          { install := true } 0 0).events :=
  C1_recursion_limit semverDemo envLoop { install := true } rfl
    (fun k => by
      have h : problemsAt semverDemo envLoop { install := true } k =
          problemsAt semverDemo envLoop { install := true } 0 := rfl
      rw [h]
      decide)
    (fun k => by
      have h : commandLinesAt semverDemo envLoop { install := true } k =
          commandLinesAt semverDemo envLoop { install := true } 0 := rfl
      rw [h]
      decide)
    (fun k => by
      have h : newUnsatisfiedDepsAt semverDemo envLoop (k + 1)
          (nosolutionAt semverDemo envLoop { install := true } k) =
          newUnsatisfiedDepsAt semverDemo envLoop 1
          (nosolutionAt semverDemo envLoop { install := true } 0) := rfl
      rw [h]
      decide)

/-- A demo record with a disjoint, unsatisfiable requirement. -/
def depA : Dependency :=
  { name := "left-pad", version := "^2", depender := "app",
    dependerVersion := "1.0.0" }

/-- A demo record that is resolvable (range met after installing). -/
def depB : Dependency :=
  { name := "react", version := "2.0.0", depender := "app",
    dependerVersion := "1.0.0" }

/-- An environment with one no-solution problem (`depA`) and one
resolvable problem (`depB`) whose install succeeds on the next pass. -/
def envC2 : Env where
  gather := fun _ => [depA, depB]
  installed := fun j name =>
    if j == 0 then none
    else if name == "react" then some "2.0.0" else none
  resolve := fun _ _ =>
    [{ problem := depA, resolution := none },
     { problem := depB, resolution := some "2.0.0" }]
  commandLines := fun rs =>
    if rs.isEmpty then [] else ["npm install react@2.0.0"]

/-- C2 counterexample: a run that ends with a no-solution problem — the
diagnostic for `left-pad` is printed — nevertheless returns normally
with process exit code 0, because install was requested and the
remaining resolvable package was installed successfully; the claim
demands a non-zero exit on every such path. -/
theorem C2_counterexample :
    nosolutionAt semverDemo envC2 { install := true } 0 ≠ []
    ∧ OutEvent.noSolutionDiag depA.name
        (peerDepRanges (allNestedAt semverDemo envC2 { install := true } 0)
          depA.name) ∈
        (checkPeerDependenciesRun semverDemo envC2
          { install := true } 0 0).events
    ∧ (checkPeerDependenciesRun semverDemo envC2
        { install := true } 0 0).exitCode = 0 := by
  have hpr : problemsAt semverDemo envC2 { install := true } 0 ≠ [] := by
    decide
  have hcmd : commandLinesAt semverDemo envC2 { install := true } 0 ≠ [] := by
    decide
  have hnew : newUnsatisfiedDepsAt semverDemo envC2 (0 + 1)
      (nosolutionAt semverDemo envC2 { install := true } 0) = [] := by
    decide
  refine ⟨by decide, ?_, ?_⟩
  · rw [checkRun_install_go semverDemo envC2 { install := true } 0 0 hpr rfl
      hcmd,
      installRun_done semverDemo envC2 { install := true }
        (commandLinesAt semverDemo envC2 { install := true } 0)
        (nosolutionAt semverDemo envC2 { install := true } 0) 0 0 hnew]
    decide
  · rw [checkRun_install_go semverDemo envC2 { install := true } 0 0 hpr rfl
      hcmd,
      installRun_done semverDemo envC2 { install := true }
        (commandLinesAt semverDemo envC2 { install := true } 0)
        (nosolutionAt semverDemo envC2 { install := true } 0) 0 0 hnew]

/-- C2 amended: whenever `findSolutions` runs on a pass with problems
and reports at least one no-solution problem, the per-package
diagnostics are printed; the process then exits 1 (non-zero, distinct
from the recursion-limit code 5) when no install commands were
synthesized or when only `findSolutions` was requested — but when
install was requested, commands ran, and the post-install re-check
leaves no unsatisfied records outside the known no-solution edges, the
run returns normally with exit code 0 despite the no-solution
problems. -/
theorem C2_amended (lib : SemverLib) (env : Env) (options : CliOptions)
    (k c : Nat)
    (hpr : problemsAt lib env options k ≠ [])
    (hns : nosolutionAt lib env options k ≠ []) :
    ((options.install = true → commandLinesAt lib env options k = [] →
        (checkPeerDependenciesRun lib env options k c).exitCode = 1)
    ∧ (options.install = true → commandLinesAt lib env options k ≠ [] →
        newUnsatisfiedDepsAt lib env (k + 1)
          (nosolutionAt lib env options k) = [] →
        (checkPeerDependenciesRun lib env options k c).exitCode = 0)
    ∧ (options.install = false → options.findSolutions = true →
        (checkPeerDependenciesRun lib env options k c).exitCode = 1)
    ∧ ((options.install = true ∨ options.findSolutions = true) →
        ∀ r ∈ nosolutionAt lib env options k,
        OutEvent.noSolutionDiag r.problem.name
            (peerDepRanges (allNestedAt lib env options k)
              r.problem.name) ∈
          (checkPeerDependenciesRun lib env options k c).events)) := by
  refine ⟨?_, ?_, ?_, ?_⟩
  · intro hin hcmd
    rw [checkRun_install_nocmd lib env options k c hpr hin hcmd]
  · intro hin hcmd hnew
    rw [checkRun_install_go lib env options k c hpr hin hcmd,
      installRun_done lib env options (commandLinesAt lib env options k)
        (nosolutionAt lib env options k) k c hnew]
  · intro hin hfs
    rw [checkRun_findSolutions lib env options k c hpr hin hfs]
  · intro hmode r hr
    have hdiag := findSolutionsRun_diag_mem env (problemsAt lib env options k)
      (allNestedAt lib env options k) r hr
    by_cases hin : options.install = true
    · by_cases hcmd : commandLinesAt lib env options k = []
      · rw [checkRun_install_nocmd lib env options k c hpr hin hcmd]
        exact List.mem_append.mpr (Or.inr hdiag)
      · rw [checkRun_install_go lib env options k c hpr hin hcmd]
        exact List.mem_append.mpr (Or.inl (List.mem_append.mpr
          (Or.inr hdiag)))
    · have hfs : options.findSolutions = true := by
        rcases hmode with h | h
        · exact absurd h hin
        · exact h
      have hin' : options.install = false := by simpa using hin
      rw [checkRun_findSolutions lib env options k c hpr hin' hfs]
      exact List.mem_append.mpr (Or.inl (List.mem_append.mpr
        (Or.inr hdiag)))

/-- C2 amended witness: in findSolutions-only mode the same
environment exits 1 after printing the diagnostic. -/
theorem C2_amended_witness :
    (checkPeerDependenciesRun semverDemo envC2
      { findSolutions := true } 0 0).exitCode = 1
    ∧ OutEvent.noSolutionDiag depA.name
        (peerDepRanges
          (allNestedAt semverDemo envC2 { findSolutions := true } 0)
          depA.name) ∈
        (checkPeerDependenciesRun semverDemo envC2
          { findSolutions := true } 0 0).events := by
  have h := C2_amended semverDemo envC2 { findSolutions := true } 0 0
    (by decide) (by decide)
  refine ⟨h.2.2.1 rfl rfl, ?_⟩
  have hm := h.2.2.2 (Or.inr rfl)
    { problem := depA, resolution := none } (by decide)
  exact hm

/-! Lemmas for an `orderBy` that requests neither ordering: the
reporting block is skipped and the rest of the pipeline is unaffected. -/

theorem reportedList_of_other (options : CliOptions) (l : List Dependency)
    (h1 : options.orderBy ≠ some "depender")
    (h2 : options.orderBy ≠ some "dependee") :
    reportedList options l = l := by
  rw [reportedList]
  simp [h1, h2]

theorem reportEvents_of_other (options : CliOptions)
    (sorted : List Dependency)
    (h1 : options.orderBy ≠ some "depender")
    (h2 : options.orderBy ≠ some "dependee") :
    reportEvents options sorted = [] := by
  rw [reportEvents]
  simp [h1, h2]

theorem allNestedAt_of_other (lib : SemverLib) (env : Env)
    (options : CliOptions) (k : Nat)
    (h1 : options.orderBy ≠ some "depender")
    (h2 : options.orderBy ≠ some "dependee") :
    allNestedAt lib env options k =
      allNestedAt lib env { options with orderBy := none } k := by
  rw [allNestedAt, allNestedAt, reportedList_of_other options _ h1 h2,
    reportedList_of_other _ _ (by simp) (by simp)]

theorem problemsAt_of_other (lib : SemverLib) (env : Env)
    (options : CliOptions) (k : Nat)
    (h1 : options.orderBy ≠ some "depender")
    (h2 : options.orderBy ≠ some "dependee") :
    problemsAt lib env options k =
      problemsAt lib env { options with orderBy := none } k := by
  rw [problemsAt, problemsAt, allNestedAt_of_other lib env options k h1 h2]

theorem solutionsAt_of_other (lib : SemverLib) (env : Env)
    (options : CliOptions) (k : Nat)
    (h1 : options.orderBy ≠ some "depender")
    (h2 : options.orderBy ≠ some "dependee") :
    solutionsAt lib env options k =
      solutionsAt lib env { options with orderBy := none } k := by
  rw [solutionsAt, solutionsAt, allNestedAt_of_other lib env options k h1 h2,
    problemsAt_of_other lib env options k h1 h2]

theorem nosolutionAt_of_other (lib : SemverLib) (env : Env)
    (options : CliOptions) (k : Nat)
    (h1 : options.orderBy ≠ some "depender")
    (h2 : options.orderBy ≠ some "dependee") :
    nosolutionAt lib env options k =
      nosolutionAt lib env { options with orderBy := none } k := by
  rw [nosolutionAt, nosolutionAt, solutionsAt_of_other lib env options k h1 h2]

theorem commandLinesAt_of_other (lib : SemverLib) (env : Env)
    (options : CliOptions) (k : Nat)
    (h1 : options.orderBy ≠ some "depender")
    (h2 : options.orderBy ≠ some "dependee") :
    commandLinesAt lib env options k =
      commandLinesAt lib env { options with orderBy := none } k := by
  rw [commandLinesAt, commandLinesAt,
    solutionsAt_of_other lib env options k h1 h2]

/-! No event outside the reporting block is a per-record status line. -/

theorem no_status_findSolutionsRun (env : Env)
    (problems allNested : List Dependency) :
    ∀ e ∈ (findSolutionsRun env problems allNested).events,
      isStatusEvent e = false := by
  intro e he
  simp only [findSolutionsRun, List.mem_append] at he
  rcases he with (he | he) | he
  · simp only [List.mem_cons, List.not_mem_nil, or_false] at he
    rcases he with rfl | rfl | rfl <;> rfl
  · obtain ⟨r, -, rfl⟩ := List.mem_map.mp he
    rfl
  · split at he
    · simp only [List.mem_singleton] at he
      subst he
      rfl
    · simp at he

theorem no_status_execEvents (commandLines : List String) :
    ∀ e ∈ execEvents commandLines, isStatusEvent e = false := by
  intro e he
  simp only [execEvents, List.mem_append, List.mem_cons, List.not_mem_nil,
    or_false, List.mem_flatMap] at he
  rcases he with (rfl | rfl) | ⟨cmd, -, rfl | rfl⟩ <;> rfl

theorem no_status_metEvents (b : Bool) :
    ∀ e ∈ (if b then [OutEvent.allMetAfterInstall] else []),
      isStatusEvent e = false := by
  intro e he
  split at he
  · simp only [List.mem_singleton] at he
    subst he
    rfl
  · simp at he

/-- One unfolding step of the run under an `orderBy` that requests
neither ordering: no branch emits a status line, and every branch
agrees with the run under `orderBy := none`; the recursive case is
delegated to the hypothesis `hinner`. -/
theorem C10_step (lib : SemverLib) (env : Env) (options : CliOptions)
    (k c : Nat)
    (h1 : options.orderBy ≠ some "depender")
    (h2 : options.orderBy ≠ some "dependee")
    (hinner : c + 1 < 5 →
      ((∀ e ∈ (checkPeerDependenciesRun lib env options (k + 1)
          (c + 1)).events, isStatusEvent e = false)
      ∧ checkPeerDependenciesRun lib env options (k + 1) (c + 1) =
          checkPeerDependenciesRun lib env
            { options with orderBy := none } (k + 1) (c + 1))) :
    (∀ e ∈ (checkPeerDependenciesRun lib env options k c).events,
      isStatusEvent e = false)
    ∧ checkPeerDependenciesRun lib env options k c =
        checkPeerDependenciesRun lib env { options with orderBy := none }
          k c := by
  have h1' : ({ options with orderBy := none } : CliOptions).orderBy ≠
      some "depender" := by simp
  have h2' : ({ options with orderBy := none } : CliOptions).orderBy ≠
      some "dependee" := by simp
  have hrep : reportEvents options (allNestedAt lib env options k) = [] :=
    reportEvents_of_other options _ h1 h2
  have hrep' : reportEvents { options with orderBy := none }
      (allNestedAt lib env { options with orderBy := none } k) = [] :=
    reportEvents_of_other _ _ h1' h2'
  by_cases hpr : problemsAt lib env options k = []
  · have hpr' : problemsAt lib env { options with orderBy := none } k =
        [] := by
      rw [← problemsAt_of_other lib env options k h1 h2]
      exact hpr
    rw [checkRun_of_no_problems lib env options k c hpr,
      checkRun_of_no_problems lib env _ k c hpr']
    refine ⟨?_, ?_⟩
    · intro e he
      simp only [hrep, List.nil_append, List.mem_singleton] at he
      subst he
      rfl
    · rw [hrep, hrep']
  · have hpr' : problemsAt lib env { options with orderBy := none } k ≠
        [] := by
      rw [← problemsAt_of_other lib env options k h1 h2]
      exact hpr
    by_cases hin : options.install = true
    · have hin' : ({ options with orderBy := none } : CliOptions).install =
          true := hin
      by_cases hcmd : commandLinesAt lib env options k = []
      · have hcmd' : commandLinesAt lib env
            { options with orderBy := none } k = [] := by
          rw [← commandLinesAt_of_other lib env options k h1 h2]
          exact hcmd
        rw [checkRun_install_nocmd lib env options k c hpr hin hcmd,
          checkRun_install_nocmd lib env _ k c hpr' hin' hcmd']
        refine ⟨?_, ?_⟩
        · intro e he
          simp only [hrep, List.nil_append] at he
          exact no_status_findSolutionsRun env _ _ e he
        · rw [hrep, hrep', solutionsAt_of_other lib env options k h1 h2]
      · have hcmd' : commandLinesAt lib env
            { options with orderBy := none } k ≠ [] := by
          rw [← commandLinesAt_of_other lib env options k h1 h2]
          exact hcmd
        rw [checkRun_install_go lib env options k c hpr hin hcmd,
          checkRun_install_go lib env _ k c hpr' hin' hcmd']
        by_cases hnew : newUnsatisfiedDepsAt lib env (k + 1)
            (nosolutionAt lib env options k) = []
        · have hnew' : newUnsatisfiedDepsAt lib env (k + 1)
              (nosolutionAt lib env { options with orderBy := none } k) =
              [] := by
            rw [← nosolutionAt_of_other lib env options k h1 h2]
            exact hnew
          rw [installRun_done lib env options
              (commandLinesAt lib env options k)
              (nosolutionAt lib env options k) k c hnew,
            installRun_done lib env { options with orderBy := none }
              (commandLinesAt lib env { options with orderBy := none } k)
              (nosolutionAt lib env { options with orderBy := none } k)
              k c hnew']
          refine ⟨?_, ?_⟩
          · intro e he
            simp only [hrep, List.nil_append, List.mem_append] at he
            rcases he with he | he | he
            · exact no_status_findSolutionsRun env _ _ e he
            · exact no_status_execEvents _ e he
            · exact no_status_metEvents _ e he
          · rw [hrep, hrep', solutionsAt_of_other lib env options k h1 h2,
              commandLinesAt_of_other lib env options k h1 h2,
              nosolutionAt_of_other lib env options k h1 h2]
        · have hnew' : newUnsatisfiedDepsAt lib env (k + 1)
              (nosolutionAt lib env { options with orderBy := none } k) ≠
              [] := by
            rw [← nosolutionAt_of_other lib env options k h1 h2]
            exact hnew
          by_cases hlt : c + 1 < 5
          · obtain ⟨hst, heq⟩ := hinner hlt
            rw [installRun_recurse lib env options
                (commandLinesAt lib env options k)
                (nosolutionAt lib env options k) k c hnew hlt,
              installRun_recurse lib env { options with orderBy := none }
                (commandLinesAt lib env { options with orderBy := none } k)
                (nosolutionAt lib env { options with orderBy := none } k)
                k c hnew' hlt]
            refine ⟨?_, ?_⟩
            · intro e he
              simp only [hrep, List.nil_append] at he
              rcases List.mem_append.mp he with he | he
              · exact no_status_findSolutionsRun env _ _ e he
              · rcases List.mem_append.mp he with he | he
                · rcases List.mem_append.mp he with he | he
                  · exact no_status_execEvents _ e he
                  · simp only [List.mem_singleton] at he
                    subst he
                    rfl
                · exact hst e he
            · rw [hrep, hrep', solutionsAt_of_other lib env options k h1 h2,
                commandLinesAt_of_other lib env options k h1 h2,
                nosolutionAt_of_other lib env options k h1 h2, heq]
          · rw [installRun_limit lib env options
                (commandLinesAt lib env options k)
                (nosolutionAt lib env options k) k c hnew hlt,
              installRun_limit lib env { options with orderBy := none }
                (commandLinesAt lib env { options with orderBy := none } k)
                (nosolutionAt lib env { options with orderBy := none } k)
                k c hnew' hlt]
            refine ⟨?_, ?_⟩
            · intro e he
              simp only [hrep, List.nil_append] at he
              rcases List.mem_append.mp he with he | he
              · exact no_status_findSolutionsRun env _ _ e he
              · rcases List.mem_append.mp he with he | he
                · exact no_status_execEvents _ e he
                · simp only [List.mem_cons, List.not_mem_nil, or_false]
                    at he
                  rcases he with rfl | rfl <;> rfl
            · rw [hrep, hrep', solutionsAt_of_other lib env options k h1 h2,
                commandLinesAt_of_other lib env options k h1 h2,
                nosolutionAt_of_other lib env options k h1 h2]
    · have hinF : options.install = false := by simpa using hin
      have hin' : ({ options with orderBy := none } : CliOptions).install =
          false := hinF
      by_cases hfs : options.findSolutions = true
      · have hfs' : ({ options with orderBy := none } :
            CliOptions).findSolutions = true := hfs
        rw [checkRun_findSolutions lib env options k c hpr hinF hfs,
          checkRun_findSolutions lib env _ k c hpr' hin' hfs']
        refine ⟨?_, ?_⟩
        · intro e he
          simp only [hrep, List.nil_append, List.mem_append] at he
          rcases he with he | he
          · exact no_status_findSolutionsRun env _ _ e he
          · split at he
            · simp only [List.mem_singleton] at he
              subst he
              rfl
            · simp at he
        · rw [hrep, hrep', solutionsAt_of_other lib env options k h1 h2,
            commandLinesAt_of_other lib env options k h1 h2]
      · have hfsF : options.findSolutions = false := by simpa using hfs
        have hfs' : ({ options with orderBy := none } :
            CliOptions).findSolutions = false := hfsF
        rw [checkRun_default lib env options k c hpr hinF hfsF,
          checkRun_default lib env _ k c hpr' hin' hfs']
        refine ⟨?_, ?_⟩
        · intro e he
          simp only [hrep, List.nil_append, List.mem_singleton] at he
          subst he
          rfl
        · rw [hrep, hrep']

/-- C10: when `orderBy` is neither "depender" nor "dependee", the whole
run prints no per-record status line at all — not even for unsatisfied
or yalc records — while problem detection, resolution and the exit-code
behaviour proceed exactly as with no ordering requested. -/
theorem C10_no_status_lines (lib : SemverLib) (env : Env)
    (options : CliOptions) (k c : Nat)
    (h1 : options.orderBy ≠ some "depender")
    (h2 : options.orderBy ≠ some "dependee") :
    (∀ e ∈ (checkPeerDependenciesRun lib env options k c).events,
      isStatusEvent e = false)
    ∧ checkPeerDependenciesRun lib env options k c =
        checkPeerDependenciesRun lib env { options with orderBy := none }
          k c := by
  have aux : ∀ n k c, 5 - c ≤ n →
      ((∀ e ∈ (checkPeerDependenciesRun lib env options k c).events,
        isStatusEvent e = false)
      ∧ checkPeerDependenciesRun lib env options k c =
          checkPeerDependenciesRun lib env { options with orderBy := none }
            k c) := by
    intro n
    induction n with
    | zero =>
      intro k c hn
      exact C10_step lib env options k c h1 h2
        (fun hlt => absurd hlt (by omega))
    | succ n ih =>
      intro k c hn
      exact C10_step lib env options k c h1 h2
        (fun hlt => ih (k + 1) (c + 1) (by omega))
  exact aux 5 k c (by omega)

/-- C10 witness: a concrete run with `orderBy := some "alpha"` prints
no status line and coincides with the run with no ordering. -/
theorem C10_witness :
    (∀ e ∈ (checkPeerDependenciesRun semverDemo envC2
      { orderBy := some "alpha", install := true } 0 0).events,
      isStatusEvent e = false)
    ∧ checkPeerDependenciesRun semverDemo envC2
        { orderBy := some "alpha", install := true } 0 0 =
      checkPeerDependenciesRun semverDemo envC2
        { orderBy := none, install := true } 0 0 :=
  C10_no_status_lines semverDemo envC2
    { orderBy := some "alpha", install := true } 0 0 (by decide) (by decide)

end CheckPeerDeps
